import Mathlib

namespace RLM

/-- Python whitespace: the characters `str.strip()` removes and the regex
whitespace class matches (the Unicode whitespace set of `str.isspace`). -/
def isPyWs (c : Char) : Bool :=
  (9 ≤ c.toNat && c.toNat ≤ 13) || (28 ≤ c.toNat && c.toNat ≤ 32) ||
    c.toNat = 133 || c.toNat = 160 || c.toNat = 5760 ||
    (8192 ≤ c.toNat && c.toNat ≤ 8202) || c.toNat = 8232 || c.toNat = 8233 ||
    c.toNat = 8239 || c.toNat = 8287 || c.toNat = 12288

/-- ASCII decimal digit, the model of the regex digit class. -/
def isAsciiDigit (c : Char) : Bool :=
  48 ≤ c.toNat && c.toNat ≤ 57

/-- Lower-casing of a single character, the ASCII model of Python `str.lower`. -/
def lowerChar (c : Char) : Char :=
  if 65 ≤ c.toNat && c.toNat ≤ 90 then Char.ofNat (c.toNat + 32) else c

/-- Model of Python `str.lower` (ASCII range). -/
def pyLower (s : String) : String :=
  String.mk (s.data.map lowerChar)

/-- Model of Python `str.strip()`: remove leading and trailing whitespace. -/
def pyStrip (s : String) : String :=
  String.mk (((s.data.dropWhile isPyWs).reverse.dropWhile isPyWs).reverse)

example : pyStrip "  ab c  " = "ab c" := by decide
example : pyLower "NuLL" = "null" := by decide
example : ("ab" : String).data = ['a', 'b'] := rfl

/-- Decimal digit character with value `n` (used only with arguments `< 10`). -/
def digitChar : Nat → Char
  | 0 => '0'
  | 1 => '1'
  | 2 => '2'
  | 3 => '3'
  | 4 => '4'
  | 5 => '5'
  | 6 => '6'
  | 7 => '7'
  | 8 => '8'
  | 9 => '9'
  | _ => '0'

/-- Numeric value of a decimal digit character. -/
def dv (c : Char) : Nat := c.toNat - 48

/-- Two-digit zero-padded decimal rendering, as strftime format code for
month, day, hour, minute and second produces. -/
def pad2 (n : Nat) : List Char :=
  [digitChar (n / 10 % 10), digitChar (n % 10)]

/-- Four-digit zero-padded decimal rendering, as strftime's year code
produces for years up to 9999 (every Python `datetime` year). -/
def pad4 (n : Nat) : List Char :=
  [digitChar (n / 1000 % 10), digitChar (n / 100 % 10), digitChar (n / 10 % 10), digitChar (n % 10)]

/-- A calendar date, the injected model of `datetime.now()` for
`strftime('%Y-%m-%d')` purposes. -/
structure Date where
  year : Nat
  month : Nat
  day : Nat

/-- A date plus wall-clock time, the injected model of `datetime.now()` for
`strftime('%Y-%m-%dT%H:%M:%S')` purposes and the result of datetime parsing. -/
structure DateTime where
  year : Nat
  month : Nat
  day : Nat
  hour : Nat
  minute : Nat
  second : Nat

/-- Model of `dt.strftime('%Y-%m-%d')`. -/
def fmtYMD (y m d : Nat) : String :=
  String.mk (pad4 y ++ '-' :: pad2 m ++ '-' :: pad2 d)

/-- Model of `datetime.now().strftime('%Y-%m-%d')` over the injected clock. -/
def fmtDate (t : Date) : String :=
  fmtYMD t.year t.month t.day

/-- Model of `dt.strftime('%Y-%m-%dT%H:%M:%S')`. -/
def fmtDateTime (t : DateTime) : String :=
  String.mk (pad4 t.year ++ '-' :: pad2 t.month ++ '-' :: pad2 t.day ++
    'T' :: pad2 t.hour ++ ':' :: pad2 t.minute ++ ':' :: pad2 t.second)

/-- Embedding of `handle_null_or_empty` (src/main.py, lines 43-47): treat
`None`, the empty string, whitespace-only strings, and the case-insensitive
literals "null" and "none" as absent, returning the default. -/
def handle_null_or_empty (value : Option String) (default : String) : String :=
  match value with
  | none => default
  | some s =>
      if s = "" ∨ pyStrip s = "" ∨ pyLower s = "null" ∨ pyLower s = "none" then default
      else s

example : handle_null_or_empty (some "NULL") "d" = "d" := by decide
example : handle_null_or_empty (some " x ") "d" = " x " := by decide

/-! JSON values and a model of Python `json.loads`.  Numbers are kept as a
mantissa/decimal-exponent pair; the matcher only ever tests numbers for
zero-ness and never reads them back. -/

/-- A parsed JSON value, the model of what Python `json.loads` returns.
The non-standard constants NaN, Infinity and -Infinity, which `json.loads`
accepts by default, get their own constructors. -/
inductive Json where
  | null
  | bool (b : Bool)
  | num (mant : Int) (exp10 : Int)
  | nan
  | inf (neg : Bool)
  | str (s : String)
  | arr (elems : List Json)
  | obj (members : List (String × Json))

/-- Opening curly bracket character. -/
def lbraceChar : Char := Char.ofNat 123

/-- Closing curly bracket character. -/
def rbraceChar : Char := Char.ofNat 125

/-- JSON inter-token whitespace (the strict set accepted by `json.loads`). -/
def isJsonWs (c : Char) : Bool :=
  c.toNat = 32 || c.toNat = 9 || c.toNat = 10 || c.toNat = 13

/-- Skip JSON whitespace. -/
def jsonSkipWs (l : List Char) : List Char := l.dropWhile isJsonWs

/-- Insert or update a key in an association list, keeping the position of an
existing key: the model of Python dict insertion used while decoding an
object. -/
def insertKV : List (String × Json) → String → Json → List (String × Json)
  | [], k, v => [(k, v)]
  | (k0, v0) :: t, k, v =>
      if k0 = k then (k0, v) :: t else (k0, v0) :: insertKV t k v

/-- Decode a single string-escape character (the JSON simple escapes). -/
def escChar (c : Char) : Option Char :=
  if c = '"' then some '"'
  else if c = '\\' then some '\\'
  else if c = '/' then some '/'
  else if c = 'b' then some (Char.ofNat 8)
  else if c = 'f' then some (Char.ofNat 12)
  else if c = 'n' then some '\n'
  else if c = 'r' then some '\r'
  else if c = 't' then some '\t'
  else none

/-- Value of a hexadecimal digit character, if it is one. -/
def hexVal (c : Char) : Option Nat :=
  if 48 ≤ c.toNat ∧ c.toNat ≤ 57 then some (c.toNat - 48)
  else if 97 ≤ c.toNat ∧ c.toNat ≤ 102 then some (c.toNat - 87)
  else if 65 ≤ c.toNat ∧ c.toNat ≤ 70 then some (c.toNat - 55)
  else none

/-- Parse the body of a JSON string after the opening quote, returning the
decoded characters and the remaining input. -/
def parseStringBody : List Char → Option (List Char × List Char)
  | [] => none
  | c :: rest =>
      if c = '"' then some ([], rest)
      else if c = '\\' then
        match rest with
        | [] => none
        | e :: rest2 =>
            if e = 'u' then
              match rest2 with
              | h1 :: h2 :: h3 :: h4 :: rest3 => do
                  let v1 ← hexVal h1
                  let v2 ← hexVal h2
                  let v3 ← hexVal h3
                  let v4 ← hexVal h4
                  let (cs, r) ← parseStringBody rest3
                  some (Char.ofNat (((v1 * 16 + v2) * 16 + v3) * 16 + v4) :: cs, r)
              | _ => none
            else do
              let d ← escChar e
              let (cs, r) ← parseStringBody rest2
              some (d :: cs, r)
      else if c.toNat < 32 then none
      else do
        let (cs, r) ← parseStringBody rest
        some (c :: cs, r)

/-- Greedily read decimal digits, accumulating their value and count. -/
def grabDigits : Nat → Nat → List Char → (Nat × Nat × List Char)
  | acc, cnt, [] => (acc, cnt, [])
  | acc, cnt, c :: rest =>
      if isAsciiDigit c then grabDigits (acc * 10 + dv c) (cnt + 1) rest
      else (acc, cnt, c :: rest)

/-- Parse the optional exponent part of a JSON number. -/
def parseExpPart (mant : Int) (e0 : Int) (l : List Char) : Option (Json × List Char) :=
  match l with
  | c :: rest =>
      if c = 'e' ∨ c = 'E' then
        let (esign, rest2) : (Bool × List Char) :=
          match rest with
          | '+' :: t => (false, t)
          | '-' :: t => (true, t)
          | t => (false, t)
        let (ev, k, rest3) := grabDigits 0 0 rest2
        if k = 0 then none
        else some (Json.num mant (if esign then e0 - Int.ofNat ev else e0 + Int.ofNat ev), rest3)
      else some (Json.num mant e0, c :: rest)
  | [] => some (Json.num mant e0, [])

/-- Parse the optional fraction and exponent after the integer part of a
JSON number. -/
def parseFracExp (neg : Bool) (ip : Nat) (l : List Char) : Option (Json × List Char) :=
  let signed : Nat → Int := fun n => if neg then -(Int.ofNat n) else Int.ofNat n
  match l with
  | '.' :: rest =>
      let (fv, k, rest2) := grabDigits 0 0 rest
      if k = 0 then none
      else parseExpPart (signed (ip * 10 ^ k + fv)) (-(Int.ofNat k)) rest2
  | _ => parseExpPart (signed ip) 0 l

/-- Parse a JSON number (integer part rules: `0` or a nonzero-led digit run). -/
def parseNumber (l : List Char) : Option (Json × List Char) :=
  let (neg, l1) : (Bool × List Char) :=
    match l with
    | '-' :: t => (true, t)
    | t => (false, t)
  match l1 with
  | '0' :: t => parseFracExp neg 0 t
  | c :: t =>
      if isAsciiDigit c then
        let (v, _, rest) := grabDigits (dv c) 1 t
        parseFracExp neg v rest
      else none
  | [] => none

mutual

/-- Parse one JSON value (fuel-bounded recursion; the fuel picked by
`json_loads` always suffices). -/
def parseValue : Nat → List Char → Option (Json × List Char)
  | 0, _ => none
  | _ + 1, [] => none
  | fuel + 1, c :: rest =>
      if c = lbraceChar then
        match jsonSkipWs rest with
        | c2 :: r2 =>
            if c2 = rbraceChar then some (Json.obj [], r2)
            else (parseMembers fuel (c2 :: r2) []).map (fun p => (Json.obj p.1, p.2))
        | [] => none
      else if c = '[' then
        match jsonSkipWs rest with
        | c2 :: r2 =>
            if c2 = ']' then some (Json.arr [], r2)
            else (parseElems fuel (c2 :: r2) []).map (fun p => (Json.arr p.1, p.2))
        | [] => none
      else if c = '"' then do
        let (cs, r) ← parseStringBody rest
        some (Json.str (String.mk cs), r)
      else if c = 't' then
        match rest with
        | 'r' :: 'u' :: 'e' :: r => some (Json.bool true, r)
        | _ => none
      else if c = 'f' then
        match rest with
        | 'a' :: 'l' :: 's' :: 'e' :: r => some (Json.bool false, r)
        | _ => none
      else if c = 'n' then
        match rest with
        | 'u' :: 'l' :: 'l' :: r => some (Json.null, r)
        | _ => none
      else if c = 'N' then
        match rest with
        | 'a' :: 'N' :: r => some (Json.nan, r)
        | _ => none
      else if c = 'I' then
        match rest with
        | 'n' :: 'f' :: 'i' :: 'n' :: 'i' :: 't' :: 'y' :: r => some (Json.inf false, r)
        | _ => none
      else if c = '-' then
        match rest with
        | 'I' :: 'n' :: 'f' :: 'i' :: 'n' :: 'i' :: 't' :: 'y' :: r => some (Json.inf true, r)
        | _ => parseNumber (c :: rest)
      else if isAsciiDigit c then parseNumber (c :: rest)
      else none

/-- Parse the members of a JSON object, positioned at a key; keys are
inserted with Python-dict update semantics. -/
def parseMembers : Nat → List Char → List (String × Json) → Option (List (String × Json) × List Char)
  | 0, _, _ => none
  | fuel + 1, l, acc =>
      match l with
      | '"' :: lk => do
          let (kcs, r1) ← parseStringBody lk
          match jsonSkipWs r1 with
          | ':' :: r2 => do
              let (v, r3) ← parseValue fuel (jsonSkipWs r2)
              let acc2 := insertKV acc (String.mk kcs) v
              match jsonSkipWs r3 with
              | ',' :: r4 => parseMembers fuel (jsonSkipWs r4) acc2
              | c5 :: r5 =>
                  if c5 = rbraceChar then some (acc2, r5) else none
              | [] => none
          | _ => none
      | _ => none

/-- Parse the elements of a JSON array, positioned at a value. -/
def parseElems : Nat → List Char → List Json → Option (List Json × List Char)
  | 0, _, _ => none
  | fuel + 1, l, acc => do
      let (v, r1) ← parseValue fuel l
      match jsonSkipWs r1 with
      | ',' :: r2 => parseElems fuel (jsonSkipWs r2) (acc ++ [v])
      | ']' :: r2 => some (acc ++ [v], r2)
      | _ => none

end

/-- Model of Python `json.loads`: parse one JSON document, allowing
surrounding whitespace only. -/
def json_loads (s : String) : Except Unit Json :=
  match parseValue (2 * s.data.length + 2) (jsonSkipWs s.data) with
  | some (v, rest) => if (jsonSkipWs rest).isEmpty then Except.ok v else Except.error ()
  | none => Except.error ()

example : json_loads "\x7b\"a\": \"Y\", \"b\": \"\", \"c\": \"no\"\x7d" =
    Except.ok (Json.obj [("a", Json.str "Y"), ("b", Json.str ""), ("c", Json.str "no")]) := rfl
example : json_loads "\x7b\"q\": 5\x7d" = Except.ok (Json.obj [("q", Json.num 5 0)]) := rfl
example : json_loads "not json" = Except.error () := rfl
example : json_loads "\x7b\x7d" = Except.ok (Json.obj []) := rfl
example : json_loads "[1, 2]" = Except.ok (Json.arr [Json.num 1 0, Json.num 2 0]) := rfl
example : json_loads "NaN" = Except.ok Json.nan := rfl
example : json_loads "Infinity" = Except.ok (Json.inf false) := rfl
example : json_loads "-Infinity" = Except.ok (Json.inf true) := rfl
example : json_loads "-12" = Except.ok (Json.num (-12) 0) := rfl

/-! The questionnaire matcher. -/

/-- One question template coming from the upstream API (or supplied inline
through `real_questions`): an immutable description plus identifier. -/
structure ApiQuestion where
  questionDescription : String
  questionId : Int
deriving DecidableEq

/-- One fully populated output entry of the questionnaire matcher. -/
structure AnsweredQuestion where
  questionDescription : String
  questionId : Int
  questionResponse : String
deriving DecidableEq

/-- The Python exceptions our embedding can surface. -/
inductive PyErr where
  | attributeError
deriving DecidableEq

/-- Decidable equality for the matcher result type. -/
instance exceptDecEq {e a : Type} [DecidableEq e] [DecidableEq a] :
    DecidableEq (Except e a) := fun x y =>
  match x, y with
  | Except.error e1, Except.error e2 =>
      if h : e1 = e2 then isTrue (by rw [h])
      else isFalse (by intro he; cases he; exact h rfl)
  | Except.ok v1, Except.ok v2 =>
      if h : v1 = v2 then isTrue (by rw [h])
      else isFalse (by intro he; cases he; exact h rfl)
  | Except.error _, Except.ok _ => isFalse (by intro he; cases he)
  | Except.ok _, Except.error _ => isFalse (by intro he; cases he)

/-- Python truthiness of a decoded JSON value.  NaN and the infinities are
truthy floats.  (Not modeled: decimal literals so tiny that the float they
decode to underflows to 0.0 and becomes falsy.) -/
def pyTruthy : Json → Bool
  | Json.null => false
  | Json.bool b => b
  | Json.num m _ => decide (m ≠ 0)
  | Json.nan => true
  | Json.inf _ => true
  | Json.str s => decide (s ≠ "")
  | Json.arr l => !l.isEmpty
  | Json.obj l => !l.isEmpty

/-- Model of calling `.lower()` on a decoded JSON value: only strings have
that attribute, every other value raises `AttributeError`. -/
def jsonLower : Json → Except PyErr String
  | Json.str s => Except.ok (pyLower s)
  | _ => Except.error PyErr.attributeError

/-- The positional matching loop of `transform_questions_with_api_match`
(src/main.py, lines 288-303): walk the templates in order, consuming the
caller's answer entries positionally; a missing or falsy answer becomes
"na", and the final response is lower-cased. -/
def matchLoop : List ApiQuestion → List (String × Json) → Except PyErr (List AnsweredQuestion)
  | [], _ => Except.ok []
  | q :: qs, [] => do
      let rest ← matchLoop qs []
      Except.ok (⟨q.questionDescription, q.questionId, "na"⟩ :: rest)
  | q :: qs, (_, v) :: us => do
      let finalResponse := if pyTruthy v then v else Json.str "na"
      let resp ← jsonLower finalResponse
      let rest ← matchLoop qs us
      Except.ok (⟨q.questionDescription, q.questionId, resp⟩ :: rest)

/-- Embedding of `transform_questions_with_api_match` (src/main.py, lines
254-306): empty/blank input, malformed JSON, and falsy parses yield the
api questions with empty responses; otherwise the parsed mapping's entries
are matched positionally against the templates.  Calling `.items()` on a
non-dict parse, or `.lower()` on a non-string truthy value, raises
`AttributeError`. -/
def transform_questions_with_api_match (questions_json_string : String)
    (api_questions : List ApiQuestion) : Except PyErr (List AnsweredQuestion) :=
  if questions_json_string = "" ∨ pyStrip questions_json_string = "" then
    Except.ok (api_questions.map fun q => ⟨q.questionDescription, q.questionId, ""⟩)
  else
    match json_loads questions_json_string with
    | Except.error _ =>
        Except.ok (api_questions.map fun q => ⟨q.questionDescription, q.questionId, ""⟩)
    | Except.ok j =>
        if pyTruthy j = false then
          Except.ok (api_questions.map fun q => ⟨q.questionDescription, q.questionId, ""⟩)
        else
          match j with
          | Json.obj items => matchLoop api_questions items
          | _ => Except.error PyErr.attributeError

/-! Models of the anchored regular expressions and of the
`datetime.strptime` format strings used by the two date normalizers. -/

/-- Consume one expected literal character. -/
def eatChar (c : Char) : List Char → Option (List Char)
  | [] => none
  | a :: rest => if a = c then some rest else none

/-- Consume exactly `n` decimal digits. -/
def eatDigits : Nat → List Char → Option (List Char)
  | 0, l => some l
  | _ + 1, [] => none
  | n + 1, a :: rest => if isAsciiDigit a then eatDigits n rest else none

/-- Consume one or more decimal digits greedily. -/
def eatDigitsPlus : List Char → Option (List Char)
  | [] => none
  | a :: rest => if isAsciiDigit a then some (rest.dropWhile isAsciiDigit) else none

/-- Consume exactly `n` decimal digits and return their value. -/
def eatDigitsVal : Nat → Nat → List Char → Option (Nat × List Char)
  | 0, acc, l => some (acc, l)
  | _ + 1, _, [] => none
  | n + 1, acc, a :: rest =>
      if isAsciiDigit a then eatDigitsVal n (acc * 10 + dv a) rest else none

/-- Consume a one- or two-digit number the way the strptime character
classes do: a two-digit reading is taken when its value lies in
`[min2, max2]`, otherwise a single digit is taken (which must be nonzero
unless `zero1` is set). -/
def eatNum12 (min2 max2 : Nat) (zero1 : Bool) (l : List Char) : Option (Nat × List Char) :=
  match l with
  | c1 :: c2 :: rest =>
      if isAsciiDigit c1 then
        if isAsciiDigit c2 ∧ min2 ≤ dv c1 * 10 + dv c2 ∧ dv c1 * 10 + dv c2 ≤ max2 then
          some (dv c1 * 10 + dv c2, rest)
        else if zero1 ∨ 1 ≤ dv c1 then some (dv c1, c2 :: rest)
        else none
      else none
  | [c1] =>
      if isAsciiDigit c1 ∧ (zero1 ∨ 1 ≤ dv c1) then some (dv c1, []) else none
  | [] => none

/-- Consume one or more whitespace characters (strptime turns whitespace in
a format string into such a run). -/
def eatWs1 : List Char → Option (List Char)
  | [] => none
  | a :: rest => if isPyWs a then some (rest.dropWhile isPyWs) else none

/-- English month names, lower-case, in month order. -/
def monthNames : List (List Char) :=
  [String.data "january", String.data "february", String.data "march",
   String.data "april", String.data "may", String.data "june",
   String.data "july", String.data "august", String.data "september",
   String.data "october", String.data "november", String.data "december"]

/-- Consume a case-insensitive full month name, returning the month number. -/
def eatMonthName (l : List Char) : Option (Nat × List Char) :=
  (List.range 12).foldr
    (fun i acc =>
      let nm := monthNames.getD i []
      if (l.take nm.length).map lowerChar = nm then some (i + 1, l.drop nm.length) else acc)
    none

/-- Consume a case-insensitive AM/PM marker; `true` means PM. -/
def eatAmPm (l : List Char) : Option (Bool × List Char) :=
  if (l.take 2).map lowerChar = ['a', 'm'] then some (false, l.drop 2)
  else if (l.take 2).map lowerChar = ['p', 'm'] then some (true, l.drop 2)
  else none

/-- Gregorian leap-year rule, as Python's calendar uses. -/
def isLeap (y : Nat) : Bool :=
  (y % 4 = 0 && y % 100 ≠ 0) || y % 400 = 0

/-- Number of days in a month. -/
def daysInMonth (y m : Nat) : Nat :=
  if m = 2 then (if isLeap y then 29 else 28)
  else if m = 4 ∨ m = 6 ∨ m = 9 ∨ m = 11 then 30
  else 31

/-- Calendar validity of the triple, exactly what makes the
`datetime(year, month, day)` constructor succeed. -/
def isValidYMD (y m d : Nat) : Bool :=
  1 ≤ y && y ≤ 9999 && 1 ≤ m && m ≤ 12 && 1 ≤ d && d ≤ daysInMonth y m

/-- Package a parsed date, but only when the `datetime` constructor accepts it. -/
def mkYMD (y m d : Nat) : Option (Nat × Nat × Nat) :=
  if isValidYMD y m d then some (y, m, d) else none

/-- Require end of input at the close of a strptime match (`strptime`
rejects unconverted trailing data). -/
def eatEndYMD (y m d : Nat) (l : List Char) : Option (Nat × Nat × Nat) :=
  if l.isEmpty then mkYMD y m d else none

/-- Model of `datetime.strptime(s, '%Y-%m-%d')`. -/
def parse_Ymd (s : String) : Option (Nat × Nat × Nat) := do
  let (y, r1) ← eatDigitsVal 4 0 s.data
  let r2 ← eatChar '-' r1
  let (m, r3) ← eatNum12 1 12 false r2
  let r4 ← eatChar '-' r3
  let (d, r5) ← eatNum12 1 31 false r4
  eatEndYMD y m d r5

/-- Model of `datetime.strptime(s, '%m/%d/%Y')`. -/
def parse_mdY (s : String) : Option (Nat × Nat × Nat) := do
  let (m, r1) ← eatNum12 1 12 false s.data
  let r2 ← eatChar '/' r1
  let (d, r3) ← eatNum12 1 31 false r2
  let r4 ← eatChar '/' r3
  let (y, r5) ← eatDigitsVal 4 0 r4
  eatEndYMD y m d r5

/-- Model of `datetime.strptime(s, '%d/%m/%Y')`. -/
def parse_dmY (s : String) : Option (Nat × Nat × Nat) := do
  let (d, r1) ← eatNum12 1 31 false s.data
  let r2 ← eatChar '/' r1
  let (m, r3) ← eatNum12 1 12 false r2
  let r4 ← eatChar '/' r3
  let (y, r5) ← eatDigitsVal 4 0 r4
  eatEndYMD y m d r5

/-- Model of `datetime.strptime(s, '%Y/%m/%d')`. -/
def parse_Ymd_slash (s : String) : Option (Nat × Nat × Nat) := do
  let (y, r1) ← eatDigitsVal 4 0 s.data
  let r2 ← eatChar '/' r1
  let (m, r3) ← eatNum12 1 12 false r2
  let r4 ← eatChar '/' r3
  let (d, r5) ← eatNum12 1 31 false r4
  eatEndYMD y m d r5

/-- Model of `datetime.strptime(s, '%B %d, %Y')`. -/
def parse_BdY (s : String) : Option (Nat × Nat × Nat) := do
  let (m, r1) ← eatMonthName s.data
  let r2 ← eatWs1 r1
  let (d, r3) ← eatNum12 1 31 false r2
  let r4 ← eatChar ',' r3
  let r5 ← eatWs1 r4
  let (y, r6) ← eatDigitsVal 4 0 r5
  eatEndYMD y m d r6

/-- Model of `datetime.strptime(s, '%d %B %Y')`. -/
def parse_dBY (s : String) : Option (Nat × Nat × Nat) := do
  let (d, r1) ← eatNum12 1 31 false s.data
  let r2 ← eatWs1 r1
  let (m, r3) ← eatMonthName r2
  let r4 ← eatWs1 r3
  let (y, r5) ← eatDigitsVal 4 0 r4
  eatEndYMD y m d r5

/-- The ordered strptime attempts of `transform_schedule_date` (src/main.py,
line 168): first successful format wins. -/
def tryDateFormats (s : String) : Option (Nat × Nat × Nat) :=
  match parse_Ymd s with
  | some v => some v
  | none =>
      match parse_mdY s with
      | some v => some v
      | none =>
          match parse_dmY s with
          | some v => some v
          | none =>
              match parse_Ymd_slash s with
              | some v => some v
              | none =>
                  match parse_BdY s with
                  | some v => some v
                  | none => parse_dBY s

/-- Consume the regex piece matching hours-minutes-seconds separated by
colons, two digits each. -/
def eatTimePat (l : List Char) : Option (List Char) := do
  let r1 ← eatDigits 2 l
  let r2 ← eatChar ':' r1
  let r3 ← eatDigits 2 r2
  let r4 ← eatChar ':' r3
  eatDigits 2 r4

/-- Consume the regex piece matching a dashed calendar date, four then two
then two digits. -/
def eatDatePat (l : List Char) : Option (List Char) := do
  let r1 ← eatDigits 4 l
  let r2 ← eatChar '-' r1
  let r3 ← eatDigits 2 r2
  let r4 ← eatChar '-' r3
  eatDigits 2 r4

/-- An anchored-at-both-ends regex match where the closing anchor also
accepts a position just before a final newline, as Python's does. -/
def matchDollar (core : List Char → Bool) (l : List Char) : Bool :=
  core l || (l.getLast? = some '\n' && core l.dropLast)

/-- Core of the pattern for an already normalized date. -/
def datePatCore (l : List Char) : Bool :=
  match eatDatePat l with
  | some r => r.isEmpty
  | none => false

/-- Core of the first recognized-datetime pattern: ISO datetime with an
optional trailing Z. -/
def dtPat1 (l : List Char) : Bool :=
  match eatDatePat l >>= eatChar 'T' >>= eatTimePat with
  | some r => r.isEmpty || r = ['Z']
  | none => false

/-- Core of the second recognized-datetime pattern: ISO datetime with a
fractional-seconds part and an optional trailing Z. -/
def dtPat2 (l : List Char) : Bool :=
  match eatDatePat l >>= eatChar 'T' >>= eatTimePat >>= eatChar '.' >>= eatDigitsPlus with
  | some r => r.isEmpty || r = ['Z']
  | none => false

/-- Core of the third recognized-datetime pattern: space-separated datetime. -/
def dtPat3 (l : List Char) : Bool :=
  match eatDatePat l >>= eatChar ' ' >>= eatTimePat with
  | some r => r.isEmpty
  | none => false

/-- Embedding of `transform_schedule_date` (src/main.py, lines 128-185) over
an injected clock: blank input falls back to today; an already normalized
date passes through; a recognized datetime keeps its first ten characters;
otherwise the ordered strptime formats are tried, with today as the final
fallback. -/
def transform_schedule_date (now : Date) (date_string : String) : String :=
  let cleaned_date := handle_null_or_empty (some date_string) ""
  if cleaned_date = "" then fmtDate now
  else if matchDollar datePatCore cleaned_date.data then cleaned_date
  else if matchDollar dtPat1 cleaned_date.data || matchDollar dtPat2 cleaned_date.data ||
      matchDollar dtPat3 cleaned_date.data then
    String.mk (cleaned_date.data.take 10)
  else
    match tryDateFormats cleaned_date with
    | some (y, m, d) => fmtYMD y m d
    | none => fmtDate now

example : ∀ now, transform_schedule_date now "2025/08/04" = "2025-08-04" := fun _ => rfl
example : ∀ now, transform_schedule_date now "2025-08-04T10:30:00Z" = "2025-08-04" := fun _ => rfl
example : ∀ now, transform_schedule_date now "03/04/2025" = "2025-03-04" := fun _ => rfl
example : ∀ now, transform_schedule_date now "13/04/2025" = "2025-04-13" := fun _ => rfl
example : ∀ now, transform_schedule_date now "August 4, 2025" = "2025-08-04" := fun _ => rfl
example : ∀ now, transform_schedule_date now "2025-08-04" = "2025-08-04" := fun _ => rfl
example : ∀ now, transform_schedule_date now "" = fmtDate now := fun _ => rfl

/-! The consent datetime normalizer. -/

/-- ASCII letter, the model of the regex character class for letters. -/
def isAsciiAlpha (c : Char) : Bool :=
  (65 ≤ c.toNat && c.toNat ≤ 90) || (97 ≤ c.toNat && c.toNat ≤ 122)

/-- ASCII capital letter. -/
def isUpperAZ (c : Char) : Bool :=
  65 ≤ c.toNat && c.toNat ≤ 90

/-- Core of the already-ISO pattern for the consent datetime. -/
def isoDTPat (l : List Char) : Bool :=
  match eatDatePat l >>= eatChar 'T' >>= eatTimePat with
  | some r => r.isEmpty
  | none => false

/-- Model of stripping a leading weekday name: substitute away an anchored
run of letters followed by a comma and optional whitespace, if present. -/
def stripLeadingDayName (l : List Char) : List Char :=
  let letters := l.takeWhile isAsciiAlpha
  let rest := l.dropWhile isAsciiAlpha
  if letters.isEmpty then l
  else
    match rest with
    | ',' :: r2 => r2.dropWhile isPyWs
    | _ => l

/-- Model of stripping a trailing timezone abbreviation: substitute away a
final run of three or four capitals preceded by whitespace, if present. -/
def stripTrailingTZ (l : List Char) : List Char :=
  let rev := l.reverse
  let ups := rev.takeWhile isUpperAZ
  let restRev := rev.dropWhile isUpperAZ
  if (ups.length = 3 ∨ ups.length = 4) ∧ ¬(restRev.takeWhile isPyWs).isEmpty then
    ((restRev.dropWhile isPyWs).reverse)
  else l

/-- Model of `datetime.strptime(s, '%B %d, %Y %I:%M:%S %p')` including the
twelve-hour to twenty-four-hour conversion. -/
def strptimeLong (l : List Char) : Option DateTime := do
  let (mo, r1) ← eatMonthName l
  let r2 ← eatWs1 r1
  let (d, r3) ← eatNum12 1 31 false r2
  let r4 ← eatChar ',' r3
  let r5 ← eatWs1 r4
  let (y, r6) ← eatDigitsVal 4 0 r5
  let r7 ← eatWs1 r6
  let (h12, r8) ← eatNum12 1 12 false r7
  let r9 ← eatChar ':' r8
  let (mi, r10) ← eatNum12 0 59 true r9
  let r11 ← eatChar ':' r10
  let (sec, r12) ← eatNum12 0 61 true r11
  let r13 ← eatWs1 r12
  let (isPm, r14) ← eatAmPm r13
  if r14.isEmpty ∧ isValidYMD y mo d ∧ sec ≤ 59 then
    let h := if isPm then (if h12 = 12 then 12 else h12 + 12)
             else (if h12 = 12 then 0 else h12)
    some ⟨y, mo, d, h, mi, sec⟩
  else none

/-- Model of `s.replace('Z', '+00:00')`. -/
def replaceZ (l : List Char) : List Char :=
  l.flatMap fun c => if c = 'Z' then ['+', '0', '0', ':', '0', '0'] else [c]

/-- Parse the `HH[:MM[:SS[.fff[fff]]]]` time part accepted by
`datetime.fromisoformat`. -/
def isoTimePart (l : List Char) : Option (Nat × Nat × Nat × List Char) := do
  let (h, r1) ← eatDigitsVal 2 0 l
  if h > 23 then none else
  match r1 with
  | ':' :: r2 => do
      let (mi, r3) ← eatDigitsVal 2 0 r2
      if mi > 59 then none else
      match r3 with
      | ':' :: r4 => do
          let (sec, r5) ← eatDigitsVal 2 0 r4
          if sec > 59 then none else
          match r5 with
          | '.' :: r6 =>
              let (_, k, r7) := grabDigits 0 0 r6
              if k = 3 ∨ k = 6 then some (h, mi, sec, r7) else none
          | _ => some (h, mi, sec, r5)
      | _ => some (h, mi, 0, r3)
  | _ => some (h, 0, 0, r1)

/-- Parse the `±HH:MM[:SS[.ffffff]]` timezone-offset part accepted by
`datetime.fromisoformat`. -/
def isoOffsetPart (l : List Char) : Option (List Char) := do
  let (oh, r1) ← eatDigitsVal 2 0 l
  let r2 ← eatChar ':' r1
  let (om, r3) ← eatDigitsVal 2 0 r2
  if oh > 23 ∨ om > 59 then none else
  match r3 with
  | ':' :: r4 => do
      let (os, r5) ← eatDigitsVal 2 0 r4
      if os > 59 then none else
      match r5 with
      | '.' :: r6 =>
          let (_, k, r7) := grabDigits 0 0 r6
          if k = 6 then some r7 else none
      | _ => some r5
  | _ => some r3

/-- Model of `datetime.fromisoformat` (the strict pre-3.11 subset: a dashed
date, optionally a single separator character, a time and an offset).  The
offset is parsed for validity but dropped, since the strftime call that
follows prints only the naive fields. -/
def pyFromIso (l : List Char) : Option DateTime := do
  let (y, r1) ← eatDigitsVal 4 0 l
  let r2 ← eatChar '-' r1
  let (mo, r3) ← eatDigitsVal 2 0 r2
  let r4 ← eatChar '-' r3
  let (d, r5) ← eatDigitsVal 2 0 r4
  if !isValidYMD y mo d then none else
  match r5 with
  | [] => some ⟨y, mo, d, 0, 0, 0⟩
  | _ :: rt => do
      let (h, mi, sec, r6) ← isoTimePart rt
      match r6 with
      | [] => some ⟨y, mo, d, h, mi, sec⟩
      | c :: r7 =>
          if c = '+' ∨ c = '-' then do
            let r8 ← isoOffsetPart r7
            if r8.isEmpty then some ⟨y, mo, d, h, mi, sec⟩ else none
          else none

/-- Embedding of `transform_consent_datetime` (src/main.py, lines 93-126)
over an injected clock: blank input falls back to the current time; an
already-ISO string passes through; otherwise the weekday prefix and
timezone suffix are stripped and the long US format is parsed; otherwise a
generic ISO parse of the original string (with `Z` replaced by an explicit
offset) is attempted; otherwise the current time. -/
def transform_consent_datetime (now : DateTime) (datetime_string : Option String) : String :=
  let cleaned_datetime := handle_null_or_empty datetime_string ""
  if cleaned_datetime = "" then fmtDateTime now
  else if matchDollar isoDTPat cleaned_datetime.data then cleaned_datetime
  else
    match strptimeLong (stripTrailingTZ (stripLeadingDayName cleaned_datetime.data)) with
    | some dt => fmtDateTime dt
    | none =>
        match pyFromIso (replaceZ cleaned_datetime.data) with
        | some dt => fmtDateTime dt
        | none => fmtDateTime now

example : ∀ now, transform_consent_datetime now (some "Monday, August 4, 2025 4:50:15 AM EDT") =
    "2025-08-04T04:50:15" := fun _ => rfl
example : ∀ now, transform_consent_datetime now (some "2025-08-04T04:50:15") =
    "2025-08-04T04:50:15" := fun _ => rfl
example : ∀ now, transform_consent_datetime now (some "2025-08-04 10:30:00Z") =
    "2025-08-04T10:30:00" := fun _ => rfl
example : ∀ now, transform_consent_datetime now none = fmtDateTime now := fun _ => rfl

/-- Embedding of `transform_ai_consent` (src/main.py, lines 85-91). -/
def transform_ai_consent (consent_value : Option String) : String :=
  let cleaned_value := handle_null_or_empty consent_value "false"
  if pyLower cleaned_value = "true" ∨ pyLower cleaned_value = "yes" ∨
      pyLower cleaned_value = "1" ∨ pyLower cleaned_value = "y" then "true"
  else "false"

example : transform_ai_consent (some "YES") = "true" := rfl
example : transform_ai_consent (some "0") = "false" := rfl
example : transform_ai_consent none = "false" := rfl

/-! The upstream payload of the schedule-appointment endpoint. -/

/-- The inbound request model of the schedule-appointment endpoint. -/
structure ScheduleRequest where
  clientCode : String
  clientOrderNumber : String
  scheduledDate : String
  consigneeName : String
  phoneNumber : String
  aiConsent : String
  consentDateTime : String
  questions : String
  groupId : Option String
  real_questions : Option String

/-- A value stored in the upstream payload dictionary. -/
inductive PayloadVal where
  | str (s : String)
  | qlist (qs : List AnsweredQuestion)

/-- Embedding of the payload construction in `schedule_appointment`
(src/main.py, lines 356-376): the eight normalized fields are always
present, and `groupId` is appended exactly when the request's group id
normalizes to something non-blank.  The template list obtained from
`real_questions` is a parameter, and the whole computation surfaces the
matcher's possible exception. -/
def schedule_appointment_payload (nowD : Date) (nowT : DateTime) (req : ScheduleRequest)
    (api_questions : List ApiQuestion) : Except PyErr (List (String × PayloadVal)) := do
  let transformed_questions ← transform_questions_with_api_match req.questions api_questions
  let payload : List (String × PayloadVal) :=
    [("clientCode", PayloadVal.str (handle_null_or_empty (some req.clientCode) "")),
     ("clientOrderNumber", PayloadVal.str (handle_null_or_empty (some req.clientOrderNumber) "")),
     ("scheduledDate", PayloadVal.str (transform_schedule_date nowD req.scheduledDate)),
     ("consigneeName", PayloadVal.str (handle_null_or_empty (some req.consigneeName) "")),
     ("phoneNumber", PayloadVal.str (handle_null_or_empty (some req.phoneNumber) "")),
     ("aiConsent", PayloadVal.str (transform_ai_consent (some req.aiConsent))),
     ("consentDateTime", PayloadVal.str (transform_consent_datetime nowT (some req.consentDateTime))),
     ("questions", PayloadVal.qlist transformed_questions)]
  let clean_group : String :=
    match req.groupId with
    | some g => handle_null_or_empty (some g) ""
    | none => ""
  if clean_group ≠ "" then Except.ok (payload ++ [("groupId", PayloadVal.str clean_group)])
  else Except.ok payload

/-! Supporting lemmas. -/

theorem string_eq_empty_iff (s : String) : s = "" ↔ s.data = [] := by
  cases s with
  | mk l =>
      constructor
      · intro h
        have := congrArg String.data h
        simpa using this
      · intro h
        subst h
        rfl

theorem pyLower_data (s : String) : (pyLower s).data = s.data.map lowerChar := rfl

theorem length_of_pyLower_eq {s t : String} (h : pyLower s = t) :
    s.data.length = t.data.length := by
  have := congrArg (fun u => u.data.length) h
  simpa [pyLower] using this

theorem pyLower_ne_null_of_length {s : String} (h : s.data.length ≠ 4) :
    pyLower s ≠ "null" := by
  intro heq
  exact h (by simpa using length_of_pyLower_eq heq)

theorem pyLower_ne_none_of_length {s : String} (h : s.data.length ≠ 4) :
    pyLower s ≠ "none" := by
  intro heq
  exact h (by simpa using length_of_pyLower_eq heq)

theorem ws_vals {c : Char} (h : isPyWs c = true) :
    (9 ≤ c.toNat ∧ c.toNat ≤ 13) ∨ (28 ≤ c.toNat ∧ c.toNat ≤ 32) ∨
    c.toNat = 133 ∨ c.toNat = 160 ∨ c.toNat = 5760 ∨
    (8192 ≤ c.toNat ∧ c.toNat ≤ 8202) ∨ c.toNat = 8232 ∨ c.toNat = 8233 ∨
    c.toNat = 8239 ∨ c.toNat = 8287 ∨ c.toNat = 12288 := by
  simp only [isPyWs, Bool.or_eq_true, Bool.and_eq_true, decide_eq_true_eq] at h
  omega

theorem lowerChar_of_ws {c : Char} (h : isPyWs c = true) : lowerChar c = c := by
  have hv := ws_vals h
  unfold lowerChar
  rw [if_neg]
  simp only [Bool.and_eq_true, decide_eq_true_eq, not_and]
  omega

theorem not_ws_of_digit {c : Char} (h : isAsciiDigit c = true) : isPyWs c = false := by
  simp only [isAsciiDigit, Bool.and_eq_true, decide_eq_true_eq] at h
  cases hb : isPyWs c with
  | false => rfl
  | true =>
      have hv := ws_vals hb
      omega

theorem mem_dropWhile_of_not {α : Type} {p : α → Bool} {c : α} :
    ∀ {l : List α}, c ∈ l → p c = false → c ∈ l.dropWhile p := by
  intro l
  induction l with
  | nil => intro h; simp at h
  | cons a t ih =>
      intro hmem hpc
      by_cases hpa : p a = true
      · rw [List.dropWhile_cons_of_pos hpa]
        rcases List.mem_cons.mp hmem with h | h
        · subst h; rw [hpa] at hpc; simp at hpc
        · exact ih h hpc
      · rw [List.dropWhile_cons_of_neg hpa]
        exact hmem

theorem pyStrip_ne_empty_of {s : String} {c : Char} (hmem : c ∈ s.data)
    (hc : isPyWs c = false) : pyStrip s ≠ "" := by
  intro h
  rw [string_eq_empty_iff] at h
  simp only [pyStrip] at h
  rw [List.reverse_eq_nil_iff, List.dropWhile_eq_nil_iff] at h
  have h1 : c ∈ (s.data.dropWhile isPyWs).reverse :=
    List.mem_reverse.mpr (mem_dropWhile_of_not hmem hc)
  have := h c h1
  rw [hc] at this
  simp at this

theorem pyStrip_eq_empty_iff (s : String) :
    pyStrip s = "" ↔ ∀ c ∈ s.data, isPyWs c = true := by
  constructor
  · intro h c hmem
    by_contra hc
    exact pyStrip_ne_empty_of hmem (by simpa using hc) h
  · intro h
    rw [string_eq_empty_iff]
    simp only [pyStrip]
    have h1 : s.data.dropWhile isPyWs = [] := List.dropWhile_eq_nil_iff.mpr fun c hc => h c hc
    simp [h1]

theorem handle_null_passthrough (s d : String) (h1 : s.data ≠ [])
    (h2 : ∃ c ∈ s.data, isPyWs c = false) (h3 : s.data.length ≠ 4) :
    handle_null_or_empty (some s) d = s := by
  show (if s = "" ∨ pyStrip s = "" ∨ pyLower s = "null" ∨ pyLower s = "none" then d else s) = s
  rw [if_neg]
  push_neg
  obtain ⟨c, hmem, hc⟩ := h2
  exact ⟨fun h => h1 ((string_eq_empty_iff s).mp h),
         pyStrip_ne_empty_of hmem hc,
         pyLower_ne_null_of_length h3,
         pyLower_ne_none_of_length h3⟩

theorem eatChar_eq_some {c : Char} {l r : List Char} (h : eatChar c l = some r) :
    l = c :: r := by
  cases l with
  | nil => simp [eatChar] at h
  | cons a t =>
      simp only [eatChar] at h
      split at h
      · rename_i ha
        cases h
        rw [ha]
      · simp at h

theorem eatChar_cons_self (c : Char) (r : List Char) : eatChar c (c :: r) = some r := by
  simp [eatChar]

theorem eatDigits_eq_some {n : Nat} {l r : List Char} (h : eatDigits n l = some r) :
    ∃ ds, l = ds ++ r ∧ ds.length = n ∧ ∀ c ∈ ds, isAsciiDigit c = true := by
  induction n generalizing l with
  | zero =>
      simp only [eatDigits] at h
      cases h
      exact ⟨[], rfl, rfl, by simp⟩
  | succ k ih =>
      cases l with
      | nil => simp [eatDigits] at h
      | cons a t =>
          simp only [eatDigits] at h
          split at h
          · rename_i ha
            obtain ⟨ds, hds, hlen, hdig⟩ := ih h
            refine ⟨a :: ds, by simp [hds], by simp [hlen], ?_⟩
            intro c hc
            rcases List.mem_cons.mp hc with h | h
            · subst h; exact ha
            · exact hdig c h
          · simp at h

theorem eatDigits_append {ds : List Char} {n : Nat} (r : List Char)
    (hlen : ds.length = n) (hdig : ∀ c ∈ ds, isAsciiDigit c = true) :
    eatDigits n (ds ++ r) = some r := by
  induction ds generalizing n with
  | nil => cases hlen; simp [eatDigits]
  | cons a t ih =>
      cases hlen
      simp only [List.cons_append, eatDigits]
      rw [if_pos (hdig a (by simp))]
      exact ih rfl (fun c hc => hdig c (by simp [hc]))

theorem eatDigitsVal_eq_some {n : Nat} {acc v : Nat} {l r : List Char}
    (h : eatDigitsVal n acc l = some (v, r)) :
    ∃ ds, l = ds ++ r ∧ ds.length = n ∧ ∀ c ∈ ds, isAsciiDigit c = true := by
  induction n generalizing l acc with
  | zero =>
      simp only [eatDigitsVal] at h
      cases h
      exact ⟨[], rfl, rfl, by simp⟩
  | succ k ih =>
      cases l with
      | nil => simp [eatDigitsVal] at h
      | cons a t =>
          simp only [eatDigitsVal] at h
          split at h
          · rename_i ha
            obtain ⟨ds, hds, hlen, hdig⟩ := ih h
            refine ⟨a :: ds, by simp [hds], by simp [hlen], ?_⟩
            intro c hc
            rcases List.mem_cons.mp hc with h | h
            · subst h; exact ha
            · exact hdig c h
          · simp at h

theorem eatNum12_eq_some {min2 max2 : Nat} {z : Bool} {v : Nat} {l r : List Char}
    (h : eatNum12 min2 max2 z l = some (v, r)) :
    ∃ ds, l = ds ++ r ∧ (ds.length = 1 ∨ ds.length = 2) ∧ ∀ c ∈ ds, isAsciiDigit c = true := by
  match l with
  | [] => simp [eatNum12] at h
  | [c1] =>
      simp only [eatNum12] at h
      split at h
      · rename_i hc
        cases h
        exact ⟨[c1], by simp, by simp, by simpa using hc.1⟩
      · simp at h
  | c1 :: c2 :: t =>
      simp only [eatNum12] at h
      split at h
      · rename_i h1
        split at h
        · rename_i h2
          cases h
          exact ⟨[c1, c2], by simp, by simp, by
            intro c hc
            rcases List.mem_cons.mp hc with h | h
            · subst h; exact h1
            · simp only [List.mem_singleton] at h; subst h; exact h2.1⟩
        · split at h
          · cases h
            exact ⟨[c1], by simp, by simp, by simpa using h1⟩
          · simp at h
      · simp at h

theorem digit_digitChar (n : Nat) : isAsciiDigit (digitChar (n % 10)) = true := by
  have h : n % 10 < 10 := Nat.mod_lt _ (by omega)
  set k := n % 10 with hk
  interval_cases k <;> rfl

theorem pad4_digits (n : Nat) : ∀ c ∈ pad4 n, isAsciiDigit c = true := by
  intro c hc
  simp only [pad4, List.mem_cons, List.not_mem_nil, or_false] at hc
  rcases hc with h | h | h | h <;> (subst h; exact digit_digitChar _)

theorem pad2_digits (n : Nat) : ∀ c ∈ pad2 n, isAsciiDigit c = true := by
  intro c hc
  simp only [pad2, List.mem_cons, List.not_mem_nil, or_false] at hc
  rcases hc with h | h <;> (subst h; exact digit_digitChar _)

theorem eatDatePat_append {a b c : List Char} (r : List Char)
    (ha : a.length = 4) (hb : b.length = 2) (hc : c.length = 2)
    (hda : ∀ x ∈ a, isAsciiDigit x = true) (hdb : ∀ x ∈ b, isAsciiDigit x = true)
    (hdc : ∀ x ∈ c, isAsciiDigit x = true) :
    eatDatePat (a ++ '-' :: (b ++ '-' :: (c ++ r))) = some r := by
  simp [eatDatePat, eatDigits_append _ ha hda, eatChar_cons_self,
    eatDigits_append _ hb hdb, eatDigits_append _ hc hdc]

theorem eatDatePat_exact {a b c : List Char}
    (ha : a.length = 4) (hb : b.length = 2) (hc : c.length = 2)
    (hda : ∀ x ∈ a, isAsciiDigit x = true) (hdb : ∀ x ∈ b, isAsciiDigit x = true)
    (hdc : ∀ x ∈ c, isAsciiDigit x = true) :
    eatDatePat (a ++ '-' :: (b ++ '-' :: c)) = some [] := by
  have h := eatDatePat_append (a := a) (b := b) (c := c) [] ha hb hc hda hdb hdc
  simpa using h

theorem eatDatePat_eq_some {l r : List Char} (h : eatDatePat l = some r) :
    ∃ a b c, l = a ++ '-' :: (b ++ '-' :: (c ++ r)) ∧
      a.length = 4 ∧ b.length = 2 ∧ c.length = 2 ∧
      (∀ x ∈ a, isAsciiDigit x = true) ∧ (∀ x ∈ b, isAsciiDigit x = true) ∧
      (∀ x ∈ c, isAsciiDigit x = true) := by
  simp only [eatDatePat, bind, Option.bind_eq_some] at h
  obtain ⟨r1, h1, r2, h2, r3, h3, r4, h4, h5⟩ := h
  obtain ⟨a, hla, halen, hadig⟩ := eatDigits_eq_some h1
  have hr1 := eatChar_eq_some h2
  obtain ⟨b, hlb, hblen, hbdig⟩ := eatDigits_eq_some h3
  have hr3 := eatChar_eq_some h4
  obtain ⟨c, hlc, hclen, hcdig⟩ := eatDigits_eq_some h5
  refine ⟨a, b, c, ?_, halen, hblen, hclen, hadig, hbdig, hcdig⟩
  rw [hla, hr1, hlb, hr3, hlc]

theorem datePatCore_eq_true {l : List Char} (h : datePatCore l = true) :
    ∃ a b c, l = a ++ '-' :: (b ++ '-' :: c) ∧
      a.length = 4 ∧ b.length = 2 ∧ c.length = 2 ∧
      (∀ x ∈ a, isAsciiDigit x = true) ∧ (∀ x ∈ b, isAsciiDigit x = true) ∧
      (∀ x ∈ c, isAsciiDigit x = true) := by
  unfold datePatCore at h
  split at h
  · rename_i r hr
    rw [List.isEmpty_iff] at h
    subst h
    obtain ⟨a, b, c, hl, h4, h2, h2c, hda, hdb, hdc⟩ := eatDatePat_eq_some hr
    exact ⟨a, b, c, by simpa using hl, h4, h2, h2c, hda, hdb, hdc⟩
  · simp at h

theorem schedule_fixed (now : Date) {a b c : List Char}
    (ha : a.length = 4) (hb : b.length = 2) (hc : c.length = 2)
    (hda : ∀ x ∈ a, isAsciiDigit x = true) (hdb : ∀ x ∈ b, isAsciiDigit x = true)
    (hdc : ∀ x ∈ c, isAsciiDigit x = true) :
    transform_schedule_date now (String.mk (a ++ '-' :: (b ++ '-' :: c))) =
      String.mk (a ++ '-' :: (b ++ '-' :: c)) := by
  obtain ⟨a0, t, rfl⟩ : ∃ a0 t, a = a0 :: t := by
    cases a with
    | nil => simp at ha
    | cons x xs => exact ⟨x, xs, rfl⟩
  have hmem : a0 ∈ ((a0 :: t) ++ '-' :: (b ++ '-' :: c)) := by simp
  have hpass : handle_null_or_empty (some (String.mk ((a0 :: t) ++ '-' :: (b ++ '-' :: c)))) "" =
      String.mk ((a0 :: t) ++ '-' :: (b ++ '-' :: c)) := by
    refine handle_null_passthrough _ _ (by simp) ⟨a0, hmem, not_ws_of_digit (hda a0 (by simp))⟩ ?_
    simp only [List.length_append, List.length_cons, hb, hc] at ha ⊢
    omega
  have hx := eatDatePat_exact ha hb hc hda hdb hdc
  simp only [List.cons_append] at hx
  have hcore : datePatCore (a0 :: (t ++ '-' :: (b ++ '-' :: c))) = true := by
    simp [datePatCore, hx]
  simp only [transform_schedule_date, hpass]
  rw [if_neg (by simp [string_eq_empty_iff]), if_pos (by simp [matchDollar, hcore])]

theorem fmtYMD_fixed (now : Date) (y m d : Nat) :
    transform_schedule_date now (fmtYMD y m d) = fmtYMD y m d :=
  schedule_fixed now (a := pad4 y) (b := pad2 m) (c := pad2 d) rfl rfl rfl
    (pad4_digits y) (pad2_digits m) (pad2_digits d)

theorem eq_dropLast_concat {l : List Char} {a : Char} (h : l.getLast? = some a) :
    l = l.dropLast ++ [a] := by
  induction l using List.reverseRecOn with
  | nil => simp at h
  | append_singleton t x _ =>
      rw [List.getLast?_concat] at h
      cases h
      rw [List.dropLast_concat]

theorem datePat_facts {l : List Char} (h : matchDollar datePatCore l = true) :
    l ≠ [] ∧ (∃ c ∈ l, isPyWs c = false) ∧ l.length ≠ 4 := by
  simp only [matchDollar, Bool.or_eq_true, Bool.and_eq_true, decide_eq_true_eq] at h
  rcases h with hcore | ⟨hlast, hcore⟩
  · obtain ⟨a, b, c, hl, ha, hb, hc, hda, _, _⟩ := datePatCore_eq_true hcore
    obtain ⟨a0, t, rfl⟩ : ∃ a0 t, a = a0 :: t := by
      cases a with
      | nil => simp at ha
      | cons x xs => exact ⟨x, xs, rfl⟩
    refine ⟨by simp [hl], ⟨a0, by simp [hl], not_ws_of_digit (hda a0 (by simp))⟩, ?_⟩
    subst hl
    simp only [List.length_append, List.length_cons, hb, hc] at ha ⊢
    omega
  · have hsplit := eq_dropLast_concat hlast
    obtain ⟨a, b, c, hl, ha, hb, hc, hda, _, _⟩ := datePatCore_eq_true hcore
    obtain ⟨a0, t, rfl⟩ : ∃ a0 t, a = a0 :: t := by
      cases a with
      | nil => simp at ha
      | cons x xs => exact ⟨x, xs, rfl⟩
    rw [hl] at hsplit
    refine ⟨by simp [hsplit], ⟨a0, by simp [hsplit], not_ws_of_digit (hda a0 (by simp))⟩, ?_⟩
    rw [hsplit]
    simp only [List.length_append, List.length_cons, hb, hc] at ha ⊢
    omega

theorem schedule_fixed_pat (now : Date) (s : String)
    (h : matchDollar datePatCore s.data = true) :
    transform_schedule_date now s = s := by
  obtain ⟨hne, hex, hlen⟩ := datePat_facts h
  have hpass := handle_null_passthrough s "" hne hex hlen
  simp only [transform_schedule_date, hpass]
  rw [if_neg (fun he => hne ((string_eq_empty_iff s).mp he)), if_pos h]

theorem dtPat1_date {l : List Char} (h : dtPat1 l = true) : ∃ r, eatDatePat l = some r := by
  unfold dtPat1 at h
  split at h
  · rename_i r hr
    simp only [bind, Option.bind_eq_some] at hr
    obtain ⟨r1, hr1, _⟩ := hr
    obtain ⟨r0, hr0, _⟩ := hr1
    exact ⟨r0, hr0⟩
  · simp at h

theorem dtPat2_date {l : List Char} (h : dtPat2 l = true) : ∃ r, eatDatePat l = some r := by
  rcases hm : (eatDatePat l >>= eatChar 'T' >>= eatTimePat >>= eatChar '.' >>= eatDigitsPlus)
    with _ | r
  · rw [dtPat2, hm] at h
    simp at h
  · simp only [bind, Option.bind_eq_some] at hm
    obtain ⟨r3, hr3, _⟩ := hm
    obtain ⟨r2, hr2, _⟩ := hr3
    obtain ⟨r1, hr1, _⟩ := hr2
    obtain ⟨r0, hr0, _⟩ := hr1
    exact ⟨r0, hr0⟩

theorem dtPat3_date {l : List Char} (h : dtPat3 l = true) : ∃ r, eatDatePat l = some r := by
  unfold dtPat3 at h
  split at h
  · rename_i r hr
    simp only [bind, Option.bind_eq_some] at hr
    obtain ⟨r1, hr1, _⟩ := hr
    obtain ⟨r0, hr0, _⟩ := hr1
    exact ⟨r0, hr0⟩
  · simp at h

theorem dtPat_eatDatePat {l : List Char}
    (h : (matchDollar dtPat1 l || matchDollar dtPat2 l || matchDollar dtPat3 l) = true) :
    (∃ r, eatDatePat l = some r) ∨
      (l.getLast? = some '\n' ∧ ∃ r, eatDatePat l.dropLast = some r) := by
  simp only [matchDollar, Bool.or_eq_true, Bool.and_eq_true, decide_eq_true_eq] at h
  rcases h with ((h | ⟨hl, h⟩) | (h | ⟨hl, h⟩)) | (h | ⟨hl, h⟩)
  · exact Or.inl (dtPat1_date h)
  · exact Or.inr ⟨hl, dtPat1_date h⟩
  · exact Or.inl (dtPat2_date h)
  · exact Or.inr ⟨hl, dtPat2_date h⟩
  · exact Or.inl (dtPat3_date h)
  · exact Or.inr ⟨hl, dtPat3_date h⟩

theorem exists_len4 {α : Type} {l : List α} (h : l.length = 4) :
    ∃ x0 x1 x2 x3, l = [x0, x1, x2, x3] := by
  match l with
  | [x0, x1, x2, x3] => exact ⟨x0, x1, x2, x3, rfl⟩
  | [] => simp at h
  | [_] => simp at h
  | [_, _] => simp at h
  | [_, _, _] => simp at h
  | _ :: _ :: _ :: _ :: _ :: _ => simp at h

theorem exists_len2 {α : Type} {l : List α} (h : l.length = 2) :
    ∃ x0 x1, l = [x0, x1] := by
  match l with
  | [x0, x1] => exact ⟨x0, x1, rfl⟩
  | [] => simp at h
  | [_] => simp at h
  | _ :: _ :: _ :: _ => simp at h

theorem take10_shape {a b c : List Char} (r : List Char)
    (ha : a.length = 4) (hb : b.length = 2) (hc : c.length = 2) :
    (a ++ '-' :: (b ++ '-' :: (c ++ r))).take 10 = a ++ '-' :: (b ++ '-' :: c) := by
  obtain ⟨a0, a1, a2, a3, rfl⟩ := exists_len4 ha
  obtain ⟨b0, b1, rfl⟩ := exists_len2 hb
  obtain ⟨c0, c1, rfl⟩ := exists_len2 hc
  rfl

theorem schedule_fixed_take10 (now : Date) (l : List Char)
    (h : (matchDollar dtPat1 l || matchDollar dtPat2 l || matchDollar dtPat3 l) = true) :
    transform_schedule_date now (String.mk (l.take 10)) = String.mk (l.take 10) := by
  rcases dtPat_eatDatePat h with ⟨r, hr⟩ | ⟨hlast, r, hr⟩
  · obtain ⟨a, b, c, hl, ha, hb, hc, hda, hdb, hdc⟩ := eatDatePat_eq_some hr
    rw [hl, take10_shape r ha hb hc]
    exact schedule_fixed now ha hb hc hda hdb hdc
  · obtain ⟨a, b, c, hl, ha, hb, hc, hda, hdb, hdc⟩ := eatDatePat_eq_some hr
    have hsplit := eq_dropLast_concat hlast
    rw [hl] at hsplit
    have hshape : l = a ++ '-' :: (b ++ '-' :: (c ++ (r ++ ['\n']))) := by
      rw [hsplit]
      simp [List.append_assoc]
    rw [hshape, take10_shape (r ++ ['\n']) ha hb hc]
    exact schedule_fixed now ha hb hc hda hdb hdc

theorem schedule_cases (now : Date) (x : String) :
    transform_schedule_date now x = fmtDate now ∨
    (∃ s : String, transform_schedule_date now x = s ∧ matchDollar datePatCore s.data = true) ∨
    (∃ l : List Char, transform_schedule_date now x = String.mk (l.take 10) ∧
      (matchDollar dtPat1 l || matchDollar dtPat2 l || matchDollar dtPat3 l) = true) ∨
    (∃ y m d, transform_schedule_date now x = fmtYMD y m d) := by
  by_cases h1 : handle_null_or_empty (some x) "" = ""
  · refine Or.inl ?_
    simp only [transform_schedule_date]
    rw [if_pos h1]
  · by_cases h2 : matchDollar datePatCore (handle_null_or_empty (some x) "").data = true
    · refine Or.inr (Or.inl ⟨handle_null_or_empty (some x) "", ?_, h2⟩)
      simp only [transform_schedule_date]
      rw [if_neg h1, if_pos h2]
    · by_cases h3 : (matchDollar dtPat1 (handle_null_or_empty (some x) "").data ||
          matchDollar dtPat2 (handle_null_or_empty (some x) "").data ||
          matchDollar dtPat3 (handle_null_or_empty (some x) "").data) = true
      · refine Or.inr (Or.inr (Or.inl ⟨(handle_null_or_empty (some x) "").data, ?_, h3⟩))
        simp only [transform_schedule_date]
        rw [if_neg h1, if_neg h2, if_pos h3]
      · rcases htf : tryDateFormats (handle_null_or_empty (some x) "") with _ | ⟨y, m, d⟩
        · refine Or.inl ?_
          simp only [transform_schedule_date]
          rw [if_neg h1, if_neg h2, if_neg h3, htf]
        · refine Or.inr (Or.inr (Or.inr ⟨y, m, d, ?_⟩))
          simp only [transform_schedule_date]
          rw [if_neg h1, if_neg h2, if_neg h3, htf]

/-- C7: the schedule-date normalizer is idempotent for a fixed injected
clock: every output either passes the already-normalized check unchanged or
is rebuilt in the normalized shape, and normalized shapes pass through. -/
theorem c7_schedule_date_idempotent (now : Date) (x : String) :
    transform_schedule_date now (transform_schedule_date now x) =
      transform_schedule_date now x := by
  rcases schedule_cases now x with h | ⟨s, hs, hpat⟩ | ⟨l, hl, hpat⟩ | ⟨y, m, d, h⟩
  · rw [h]
    exact fmtYMD_fixed now _ _ _
  · rw [hs]
    exact schedule_fixed_pat now s hpat
  · rw [hl]
    exact schedule_fixed_take10 now l hpat
  · rw [h]
    exact fmtYMD_fixed now y m d

/-- C6: the three documented schedule-date examples: a slashed date is
reordered into ISO form, a recognized datetime keeps its first ten
characters, and blank input falls back to the injected current date. -/
theorem c6_schedule_date_examples (now : Date) :
    transform_schedule_date now "2025/08/04" = "2025-08-04" ∧
    transform_schedule_date now "2025-08-04T10:30:00Z" = "2025-08-04" ∧
    transform_schedule_date now "" = fmtDate now :=
  ⟨rfl, rfl, rfl⟩

/-! Lemmas for the slashed-date shape: none of the dashed patterns nor the
dashed strptime format can match a string whose first separator is a slash. -/

theorem slash_not_digit : isAsciiDigit '/' = false := rfl

theorem eatDigits4_none_slash {mds rest : List Char}
    (hm : mds.length = 1 ∨ mds.length = 2) :
    eatDigits 4 (mds ++ '/' :: rest) = none := by
  rcases hm with h | h
  · obtain ⟨x, rfl⟩ : ∃ x, mds = [x] := by
      cases mds with
      | nil => simp at h
      | cons x t =>
          cases t with
          | nil => exact ⟨x, rfl⟩
          | cons y u => simp at h
    by_cases hx : isAsciiDigit x = true <;> simp [eatDigits, hx, slash_not_digit]
  · obtain ⟨x, y, rfl⟩ := exists_len2 h
    by_cases hx : isAsciiDigit x = true <;> by_cases hy : isAsciiDigit y = true <;>
      simp [eatDigits, hx, hy, slash_not_digit]

theorem eatDigitsVal4_none_slash {mds rest : List Char} {acc : Nat}
    (hm : mds.length = 1 ∨ mds.length = 2) :
    eatDigitsVal 4 acc (mds ++ '/' :: rest) = none := by
  rcases hm with h | h
  · obtain ⟨x, rfl⟩ : ∃ x, mds = [x] := by
      cases mds with
      | nil => simp at h
      | cons x t =>
          cases t with
          | nil => exact ⟨x, rfl⟩
          | cons y u => simp at h
    by_cases hx : isAsciiDigit x = true <;> simp [eatDigitsVal, hx, slash_not_digit]
  · obtain ⟨x, y, rfl⟩ := exists_len2 h
    by_cases hx : isAsciiDigit x = true <;> by_cases hy : isAsciiDigit y = true <;>
      simp [eatDigitsVal, hx, hy, slash_not_digit]

theorem eatDatePat_none_slash {mds rest : List Char}
    (hm : mds.length = 1 ∨ mds.length = 2) :
    eatDatePat (mds ++ '/' :: rest) = none := by
  simp [eatDatePat, eatDigits4_none_slash hm]

theorem datePatCore_false_of_none {l : List Char} (h : eatDatePat l = none) :
    datePatCore l = false := by
  simp [datePatCore, h]

theorem dtPat1_false_of_none {l : List Char} (h : eatDatePat l = none) :
    dtPat1 l = false := by
  simp [dtPat1, h]

theorem dtPat2_false_of_none {l : List Char} (h : eatDatePat l = none) :
    dtPat2 l = false := by
  simp [dtPat2, h]

theorem dtPat3_false_of_none {l : List Char} (h : eatDatePat l = none) :
    dtPat3 l = false := by
  simp [dtPat3, h]

theorem digit_ne_newline {c : Char} (h : isAsciiDigit c = true) : c ≠ '\n' := by
  simp only [isAsciiDigit, Bool.and_eq_true, decide_eq_true_eq] at h
  intro he
  subst he
  simp at h

theorem matchDollar_false_slash {mds dds : List Char} {y0 y1 y2 y3 : Char}
    {pat : List Char → Bool}
    (hpat : ∀ l, eatDatePat l = none → pat l = false)
    (hm : mds.length = 1 ∨ mds.length = 2)
    (hy3 : isAsciiDigit y3 = true) :
    matchDollar pat (mds ++ '/' :: (dds ++ '/' :: [y0, y1, y2, y3])) = false := by
  have hlast : (mds ++ '/' :: (dds ++ '/' :: [y0, y1, y2, y3])).getLast? = some y3 := by
    have hre : mds ++ '/' :: (dds ++ '/' :: [y0, y1, y2, y3]) =
        (mds ++ '/' :: (dds ++ '/' :: [y0, y1, y2])) ++ [y3] := by
      simp
    rw [hre, List.getLast?_concat]
  have hcore : pat (mds ++ '/' :: (dds ++ '/' :: [y0, y1, y2, y3])) = false :=
    hpat _ (eatDatePat_none_slash hm)
  unfold matchDollar
  rw [hcore, hlast]
  have hd : (decide (some y3 = some '\n')) = false := by
    simp only [decide_eq_false_iff_not, Option.some.injEq]
    exact digit_ne_newline hy3
  rw [hd]
  simp

/-- C4: positional date-format disambiguation: whenever both the month-first
and the day-first reading of a slashed date are valid, the month-first
format wins because it is tried first; in particular "03/04/2025" is read
as March 4. -/
theorem c4_mmdd_precedence :
    (∀ now, transform_schedule_date now "03/04/2025" = "2025-03-04") ∧
    (∀ (now : Date) (s : String) (y a b y2 a2 b2 : Nat),
      parse_mdY s = some (y, a, b) →
      parse_dmY s = some (y2, b2, a2) →
      transform_schedule_date now s = fmtYMD y a b) := by
  refine ⟨fun _ => rfl, ?_⟩
  intro now s y a b y2 a2 b2 hmd0 _hdm
  cases s with
  | mk l =>
  have hmd := hmd0
  simp only [parse_mdY, bind, Option.bind_eq_some] at hmd
  obtain ⟨⟨m, r1⟩, h1, r2, h2, ⟨d, r3⟩, h3, r4, h4, ⟨yy, r5⟩, h5, hend⟩ := hmd
  obtain ⟨mds, hsd, hmlen, hmdig⟩ := eatNum12_eq_some h1
  have hr1 := eatChar_eq_some h2
  obtain ⟨dds, hr2d, hdlen, hddig⟩ := eatNum12_eq_some h3
  have hr3 := eatChar_eq_some h4
  obtain ⟨yds, hr4d, hylen, hydig⟩ := eatDigitsVal_eq_some h5
  dsimp only at hr1 hr3 hend
  have hr5 : r5 = [] := by
    simp only [eatEndYMD] at hend
    split at hend
    · rename_i hemp
      exact List.isEmpty_iff.mp hemp
    · simp at hend
  subst hr5
  rw [List.append_nil] at hr4d
  have hshape : l = mds ++ '/' :: (dds ++ '/' :: yds) := by
    rw [hsd, hr1, hr2d, hr3, hr4d]
  obtain ⟨y0, y1, y2c, y3, rfl⟩ := exists_len4 hylen
  obtain ⟨m0, mt, hmds⟩ : ∃ m0 mt, mds = m0 :: mt := by
    rcases hmlen with h | h
    · cases mds with
      | nil => simp at h
      | cons x t => exact ⟨x, t, rfl⟩
    · cases mds with
      | nil => simp at h
      | cons x t => exact ⟨x, t, rfl⟩
  have hm0 : isAsciiDigit m0 = true := hmdig m0 (by rw [hmds]; simp)
  have hm0mem : m0 ∈ l := by
    rw [hshape, hmds]
    simp
  have hlen4 : l.length ≠ 4 := by
    rw [hshape]
    simp only [List.length_append, List.length_cons]
    rcases hmlen with h | h <;> rcases hdlen with h2 | h2 <;> omega
  have hpass : handle_null_or_empty (some (String.mk l)) "" = String.mk l := by
    refine handle_null_passthrough _ _ ?_ ⟨m0, hm0mem, not_ws_of_digit hm0⟩ hlen4
    rw [hshape, hmds]
    simp
  have hy3 : isAsciiDigit y3 = true := hydig y3 (by simp)
  have hkill1 : matchDollar datePatCore l = false := by
    rw [hshape]
    exact matchDollar_false_slash (fun _ h => datePatCore_false_of_none h) hmlen hy3
  have hkill2 : matchDollar dtPat1 l = false := by
    rw [hshape]
    exact matchDollar_false_slash (fun _ h => dtPat1_false_of_none h) hmlen hy3
  have hkill3 : matchDollar dtPat2 l = false := by
    rw [hshape]
    exact matchDollar_false_slash (fun _ h => dtPat2_false_of_none h) hmlen hy3
  have hkill4 : matchDollar dtPat3 l = false := by
    rw [hshape]
    exact matchDollar_false_slash (fun _ h => dtPat3_false_of_none h) hmlen hy3
  have hYmdNone : parse_Ymd (String.mk l) = none := by
    have hv : eatDigitsVal 4 0 l = none := by
      rw [hshape]
      exact eatDigitsVal4_none_slash hmlen
    simp [parse_Ymd, hv]
  have hne : ¬(String.mk l = "") := by
    intro he
    have := (string_eq_empty_iff _).mp he
    rw [hshape, hmds] at this
    simp at this
  simp only [transform_schedule_date, hpass]
  rw [if_neg hne, if_neg (by simp [hkill1]), if_neg (by simp [hkill2, hkill3, hkill4]),
    tryDateFormats, hYmdNone]
  simp only [hmd0]

theorem eatChar_length {c : Char} {l r : List Char} (h : eatChar c l = some r) :
    l.length = 1 + r.length := by
  rw [eatChar_eq_some h]
  simp only [List.length_cons]
  omega

theorem eatDigits_length {n : Nat} {l r : List Char} (h : eatDigits n l = some r) :
    l.length = n + r.length := by
  obtain ⟨ds, rfl, hlen, _⟩ := eatDigits_eq_some h
  simp [hlen]

theorem eatTimePat_length {l r : List Char} (h : eatTimePat l = some r) :
    l.length = 8 + r.length := by
  simp only [eatTimePat, bind, Option.bind_eq_some] at h
  obtain ⟨r1, h1, r2, h2, r3, h3, r4, h4, h5⟩ := h
  have e1 := eatDigits_length h1
  have e2 := eatChar_length h2
  have e3 := eatDigits_length h3
  have e4 := eatChar_length h4
  have e5 := eatDigits_length h5
  omega

/-- C5: the consent-datetime normalizer maps the long US example, with its
weekday prefix and timezone suffix stripped, to the ISO rendering; and
every input that already matches the exact ISO pattern is returned
unchanged. -/
theorem c5_consent_datetime :
    (∀ now, transform_consent_datetime now (some "Monday, August 4, 2025 4:50:15 AM EDT") =
      "2025-08-04T04:50:15") ∧
    (∀ (now : DateTime) (s : String), isoDTPat s.data = true →
      transform_consent_datetime now (some s) = s) := by
  refine ⟨fun _ => rfl, ?_⟩
  intro now s h0
  rcases hm : (eatDatePat s.data >>= eatChar 'T' >>= eatTimePat) with _ | r
  · have h := h0
    unfold isoDTPat at h
    rw [hm] at h
    simp at h
  · have h := h0
    unfold isoDTPat at h
    rw [hm] at h
    rw [List.isEmpty_iff] at h
    subst h
    simp only [bind, Option.bind_eq_some] at hm
    obtain ⟨r0, ⟨r1, hr1, hr0⟩, htp⟩ := hm
    obtain ⟨aa, bb, cc, hshape, ha, hb, hc, hda, _, _⟩ := eatDatePat_eq_some hr1
    have hT := eatChar_eq_some hr0
    have htl := eatTimePat_length htp
    obtain ⟨a0, t, ha0⟩ : ∃ a0 t, aa = a0 :: t := by
      cases aa with
      | nil => simp at ha
      | cons x xs => exact ⟨x, xs, rfl⟩
    have hlen : s.data.length = 19 := by
      have h8 : r0.length = 8 := by
        have h9 := eatTimePat_length htp
        simpa using h9
      rw [hshape, hT]
      simp only [List.length_append, List.length_cons, ha, hb, hc, h8]
    have hpass : handle_null_or_empty (some s) "" = s := by
      refine handle_null_passthrough _ _ ?_
        ⟨a0, by rw [hshape, ha0]; simp, not_ws_of_digit (hda a0 (by rw [ha0]; simp))⟩
        (by omega)
      intro he
      rw [he] at hlen
      simp at hlen
    have hne : ¬(s = "") := by
      intro he
      rw [he] at hlen
      simp at hlen
    simp only [transform_consent_datetime, hpass]
    rw [if_neg hne, if_pos (by simp [matchDollar, h0])]

theorem pyLower_allWs {s t : String} (hws : ∀ c ∈ s.data, isPyWs c = true)
    (h : pyLower s = t) : ∀ c ∈ t.data, isPyWs c = true := by
  subst h
  intro c hc
  simp only [pyLower_data, List.mem_map] at hc
  obtain ⟨c0, hc0, rfl⟩ := hc
  rw [lowerChar_of_ws (hws c0 hc0)]
  exact hws c0 hc0

/-- C8: consent normalization returns "true" exactly when the value is
present and lower-cases into the accepted truthy set, and always returns
one of the two literals. -/
theorem c8_ai_consent (v : Option String) :
    (transform_ai_consent v = "true" ∨ transform_ai_consent v = "false") ∧
    (transform_ai_consent v = "true" ↔
      ∃ s, v = some s ∧ (pyLower s = "true" ∨ pyLower s = "yes" ∨
        pyLower s = "1" ∨ pyLower s = "y")) := by
  cases v with
  | none =>
      refine ⟨Or.inr rfl, ?_⟩
      constructor
      · intro h
        exact absurd h (by decide)
      · rintro ⟨s, hs, _⟩
        cases hs
  | some s =>
      by_cases hcond : s = "" ∨ pyStrip s = "" ∨ pyLower s = "null" ∨ pyLower s = "none"
      · have hh : handle_null_or_empty (some s) "false" = "false" := by
          simp only [handle_null_or_empty]
          rw [if_pos hcond]
        have hres : transform_ai_consent (some s) = "false" := by
          simp only [transform_ai_consent, hh]
          rw [if_neg (by decide)]
        refine ⟨Or.inr hres, ?_⟩
        constructor
        · intro h
          rw [hres] at h
          exact absurd h (by decide)
        · rintro ⟨s2, hs2, htr⟩
          injection hs2 with hs2
          subst hs2
          exfalso
          rcases hcond with h | h | h | h
          · subst h
            rcases htr with h2 | h2 | h2 | h2 <;> exact absurd h2 (by decide)
          · have hws := (pyStrip_eq_empty_iff s).mp h
            rcases htr with h2 | h2 | h2 | h2 <;>
              [exact absurd (pyLower_allWs hws h2 't' (by decide)) (by decide);
               exact absurd (pyLower_allWs hws h2 'y' (by decide)) (by decide);
               exact absurd (pyLower_allWs hws h2 '1' (by decide)) (by decide);
               exact absurd (pyLower_allWs hws h2 'y' (by decide)) (by decide)]
          · rcases htr with h2 | h2 | h2 | h2 <;> exact absurd (h.symm.trans h2) (by decide)
          · rcases htr with h2 | h2 | h2 | h2 <;> exact absurd (h.symm.trans h2) (by decide)
      · have hh : handle_null_or_empty (some s) "false" = s := by
          simp only [handle_null_or_empty]
          rw [if_neg hcond]
        by_cases ht : pyLower s = "true" ∨ pyLower s = "yes" ∨ pyLower s = "1" ∨ pyLower s = "y"
        · have hres : transform_ai_consent (some s) = "true" := by
            simp only [transform_ai_consent, hh]
            rw [if_pos ht]
          exact ⟨Or.inl hres, by
            constructor
            · intro _
              exact ⟨s, rfl, ht⟩
            · intro _
              exact hres⟩
        · have hres : transform_ai_consent (some s) = "false" := by
            simp only [transform_ai_consent, hh]
            rw [if_neg ht]
          refine ⟨Or.inr hres, ?_⟩
          constructor
          · intro h
            rw [hres] at h
            exact absurd h (by decide)
          · rintro ⟨s2, hs2, htr⟩
            injection hs2 with hs2
            subst hs2
            exact absurd htr ht

/-- C9: blank normalization returns the default on the six documented
absent-style inputs and, in general, on every empty, whitespace-only or
case-insensitive "null"/"none" string, while any other string passes
through unchanged. -/
theorem c9_handle_null_or_empty (d : String) :
    (handle_null_or_empty none d = d ∧
     handle_null_or_empty (some "") d = d ∧
     handle_null_or_empty (some "  ") d = d ∧
     handle_null_or_empty (some "null") d = d ∧
     handle_null_or_empty (some "NULL") d = d ∧
     handle_null_or_empty (some "None") d = d) ∧
    (∀ s : String,
      (s = "" ∨ (∀ c ∈ s.data, isPyWs c = true) ∨ pyLower s = "null" ∨ pyLower s = "none") →
      handle_null_or_empty (some s) d = d) ∧
    (∀ s : String,
      ¬(s = "" ∨ (∀ c ∈ s.data, isPyWs c = true) ∨ pyLower s = "null" ∨ pyLower s = "none") →
      handle_null_or_empty (some s) d = s) := by
  refine ⟨⟨rfl, rfl, rfl, rfl, rfl, rfl⟩, ?_, ?_⟩
  · intro s h
    simp only [handle_null_or_empty]
    rw [if_pos]
    rcases h with h | h | h | h
    · exact Or.inl h
    · exact Or.inr (Or.inl ((pyStrip_eq_empty_iff s).mpr h))
    · exact Or.inr (Or.inr (Or.inl h))
    · exact Or.inr (Or.inr (Or.inr h))
  · intro s h
    push_neg at h
    obtain ⟨h1, h2, h3, h4⟩ := h
    simp only [handle_null_or_empty]
    rw [if_neg]
    push_neg
    refine ⟨h1, ?_, h3, h4⟩
    obtain ⟨c, hc, hcw⟩ := h2
    exact pyStrip_ne_empty_of hc (by simpa using hcw)

/-- C9 witness: a concrete default applied to a normal string and a blank
string. -/
theorem c9_handle_null_or_empty_witness :
    handle_null_or_empty (some "xyz") "dflt" = "xyz" ∧
    handle_null_or_empty (some "  ") "dflt" = "dflt" :=
  ⟨(c9_handle_null_or_empty "dflt").2.2 "xyz" (by decide),
   (c9_handle_null_or_empty "dflt").2.1 "  " (Or.inr (Or.inl (by decide)))⟩

/-- C4 witness: the ambiguous "03/04/2025" instantiates the precedence
theorem with both readings valid. -/
theorem c4_mmdd_precedence_witness :
    transform_schedule_date ⟨2025, 1, 1⟩ "03/04/2025" = fmtYMD 2025 3 4 :=
  c4_mmdd_precedence.2 ⟨2025, 1, 1⟩ "03/04/2025" 2025 3 4 2025 3 4 rfl rfl

/-- C5 witness: an exact-ISO input passes through the consent normalizer
unchanged. -/
theorem c5_consent_datetime_witness :
    transform_consent_datetime ⟨2025, 1, 1, 0, 0, 0⟩ (some "2025-08-04T04:50:15") =
      "2025-08-04T04:50:15" :=
  c5_consent_datetime.2 ⟨2025, 1, 1, 0, 0, 0⟩ "2025-08-04T04:50:15" rfl

/-! The questionnaire-matcher claims. -/

theorem parseValue_nil (fuel : Nat) : parseValue fuel [] = none := by
  cases fuel <;> rfl

theorem dropWhile_head_not {p : Char → Bool} :
    ∀ {l : List Char} {c : Char} {rest : List Char},
      l.dropWhile p = c :: rest → p c = false := by
  intro l
  induction l with
  | nil =>
      intro c rest h
      simp at h
  | cons a t ih =>
      intro c rest h
      by_cases hp : p a = true
      · rw [List.dropWhile_cons_of_pos hp] at h
        exact ih h
      · rw [List.dropWhile_cons_of_neg hp] at h
        cases h
        simpa using hp

theorem char_eq_of_toNat {a b : Char} (h : a.toNat = b.toNat) : a = b := by
  apply Char.ext
  apply UInt32.ext
  exact h

theorem parseValue_none_of_pyws_head {fuel : Nat} {c : Char} {rest : List Char}
    (hws : isPyWs c = true) (hnj : isJsonWs c = false) :
    parseValue fuel (c :: rest) = none := by
  have hv : c.toNat = 11 ∨ c.toNat = 12 ∨ c.toNat = 28 ∨ c.toNat = 29 ∨ c.toNat = 30 ∨ c.toNat = 31 ∨ c.toNat = 133 ∨ c.toNat = 160 ∨ c.toNat = 5760 ∨ c.toNat = 8192 ∨ c.toNat = 8193 ∨ c.toNat = 8194 ∨ c.toNat = 8195 ∨ c.toNat = 8196 ∨ c.toNat = 8197 ∨ c.toNat = 8198 ∨ c.toNat = 8199 ∨ c.toNat = 8200 ∨ c.toNat = 8201 ∨ c.toNat = 8202 ∨ c.toNat = 8232 ∨ c.toNat = 8233 ∨ c.toNat = 8239 ∨ c.toNat = 8287 ∨ c.toNat = 12288 := by
    have hw := ws_vals hws
    simp only [isJsonWs, Bool.or_eq_false_iff, decide_eq_false_iff_not] at hnj
    omega
  cases fuel with
  | zero => rfl
  | succ n =>
      rcases hv with h | h | h | h | h | h | h | h | h | h | h | h | h | h | h | h | h | h | h | h | h | h | h | h | h
      · have hc : c = Char.ofNat 11 := char_eq_of_toNat (by rw [h]; decide)
        subst hc
        rfl
      · have hc : c = Char.ofNat 12 := char_eq_of_toNat (by rw [h]; decide)
        subst hc
        rfl
      · have hc : c = Char.ofNat 28 := char_eq_of_toNat (by rw [h]; decide)
        subst hc
        rfl
      · have hc : c = Char.ofNat 29 := char_eq_of_toNat (by rw [h]; decide)
        subst hc
        rfl
      · have hc : c = Char.ofNat 30 := char_eq_of_toNat (by rw [h]; decide)
        subst hc
        rfl
      · have hc : c = Char.ofNat 31 := char_eq_of_toNat (by rw [h]; decide)
        subst hc
        rfl
      · have hc : c = Char.ofNat 133 := char_eq_of_toNat (by rw [h]; decide)
        subst hc
        rfl
      · have hc : c = Char.ofNat 160 := char_eq_of_toNat (by rw [h]; decide)
        subst hc
        rfl
      · have hc : c = Char.ofNat 5760 := char_eq_of_toNat (by rw [h]; decide)
        subst hc
        rfl
      · have hc : c = Char.ofNat 8192 := char_eq_of_toNat (by rw [h]; decide)
        subst hc
        rfl
      · have hc : c = Char.ofNat 8193 := char_eq_of_toNat (by rw [h]; decide)
        subst hc
        rfl
      · have hc : c = Char.ofNat 8194 := char_eq_of_toNat (by rw [h]; decide)
        subst hc
        rfl
      · have hc : c = Char.ofNat 8195 := char_eq_of_toNat (by rw [h]; decide)
        subst hc
        rfl
      · have hc : c = Char.ofNat 8196 := char_eq_of_toNat (by rw [h]; decide)
        subst hc
        rfl
      · have hc : c = Char.ofNat 8197 := char_eq_of_toNat (by rw [h]; decide)
        subst hc
        rfl
      · have hc : c = Char.ofNat 8198 := char_eq_of_toNat (by rw [h]; decide)
        subst hc
        rfl
      · have hc : c = Char.ofNat 8199 := char_eq_of_toNat (by rw [h]; decide)
        subst hc
        rfl
      · have hc : c = Char.ofNat 8200 := char_eq_of_toNat (by rw [h]; decide)
        subst hc
        rfl
      · have hc : c = Char.ofNat 8201 := char_eq_of_toNat (by rw [h]; decide)
        subst hc
        rfl
      · have hc : c = Char.ofNat 8202 := char_eq_of_toNat (by rw [h]; decide)
        subst hc
        rfl
      · have hc : c = Char.ofNat 8232 := char_eq_of_toNat (by rw [h]; decide)
        subst hc
        rfl
      · have hc : c = Char.ofNat 8233 := char_eq_of_toNat (by rw [h]; decide)
        subst hc
        rfl
      · have hc : c = Char.ofNat 8239 := char_eq_of_toNat (by rw [h]; decide)
        subst hc
        rfl
      · have hc : c = Char.ofNat 8287 := char_eq_of_toNat (by rw [h]; decide)
        subst hc
        rfl
      · have hc : c = Char.ofNat 12288 := char_eq_of_toNat (by rw [h]; decide)
        subst hc
        rfl

theorem json_loads_ok_not_blank {s : String} {v : Json}
    (h : json_loads s = Except.ok v) : ¬(s = "" ∨ pyStrip s = "") := by
  intro hb
  have hws : ∀ c ∈ s.data, isPyWs c = true := by
    rcases hb with h1 | h1
    · subst h1
      intro c hc
      simp at hc
    · exact (pyStrip_eq_empty_iff s).mp h1
  unfold json_loads at h
  rcases hd : jsonSkipWs s.data with _ | ⟨c, rest⟩
  · rw [hd, parseValue_nil] at h
    simp at h
  · have hcmem : c ∈ s.data := by
      have hsub : (s.data.dropWhile isJsonWs).Sublist s.data := List.dropWhile_sublist _
      have : c ∈ jsonSkipWs s.data := by
        rw [hd]
        simp
      exact hsub.mem this
    have hnj : isJsonWs c = false := dropWhile_head_not hd
    rw [hd, parseValue_none_of_pyws_head (hws c hcmem) hnj] at h
    simp at h

example : transform_questions_with_api_match "NaN" [⟨"Q1", 1⟩] =
    Except.error PyErr.attributeError := rfl

/-- C1 counterexample: with one template and blank answers input, the
matcher returns the template with the empty-string response, not "na". -/
theorem c1_counterexample :
    transform_questions_with_api_match "" [⟨"Q1", 1⟩] = Except.ok [⟨"Q1", 1, ""⟩] ∧
    transform_questions_with_api_match "" [⟨"Q1", 1⟩] ≠ Except.ok [⟨"Q1", 1, "na"⟩] := by
  decide

/-- C1 (amended): for every non-empty template list, blank input, malformed
JSON, or an empty parsed mapping yields one entry per template carrying the
template's description and id and the empty-string response. -/
theorem c1_matcher_degraded_empty_responses (templates : List ApiQuestion) (s : String)
    (_hne : templates ≠ [])
    (h : s = "" ∨ pyStrip s = "" ∨ json_loads s = Except.error () ∨
      json_loads s = Except.ok (Json.obj [])) :
    transform_questions_with_api_match s templates =
      Except.ok (templates.map fun q => ⟨q.questionDescription, q.questionId, ""⟩) := by
  unfold transform_questions_with_api_match
  by_cases hb : s = "" ∨ pyStrip s = ""
  · rw [if_pos hb]
  · rw [if_neg hb]
    rcases h with h | h | h | h
    · exact absurd (Or.inl h) hb
    · exact absurd (Or.inr h) hb
    · rw [h]
    · rw [h]
      simp [pyTruthy]

/-- C1 witness: malformed JSON with two templates. -/
theorem c1_matcher_degraded_empty_responses_witness :
    transform_questions_with_api_match "not json" [⟨"Q1", 1⟩, ⟨"Q2", 2⟩] =
      Except.ok [⟨"Q1", 1, ""⟩, ⟨"Q2", 2, ""⟩] :=
  c1_matcher_degraded_empty_responses [⟨"Q1", 1⟩, ⟨"Q2", 2⟩] "not json" (by decide)
    (Or.inr (Or.inr (Or.inl rfl)))

/-- C2: the matcher is not exception-free: a valid JSON mapping whose first
value is the integer 5 (truthy but not a string) makes the positional loop
call lower-casing on a non-string, which raises AttributeError. -/
theorem c2_matcher_raises_on_int_value :
    transform_questions_with_api_match "\x7b\"q\": 5\x7d" [⟨"Q1", 1⟩] =
      Except.error PyErr.attributeError := by
  decide

/-- C3: five templates against a three-entry mapping with values "Y", "",
"no": positional matching produces "y", "na", "no", then "na", "na", and
every description and id comes from the template at the same position. -/
theorem c3_positional_match (q0 q1 q2 q3 q4 : ApiQuestion) (s k1 k2 k3 : String)
    (h : json_loads s = Except.ok (Json.obj
      [(k1, Json.str "Y"), (k2, Json.str ""), (k3, Json.str "no")])) :
    transform_questions_with_api_match s [q0, q1, q2, q3, q4] =
      Except.ok [⟨q0.questionDescription, q0.questionId, "y"⟩,
                 ⟨q1.questionDescription, q1.questionId, "na"⟩,
                 ⟨q2.questionDescription, q2.questionId, "no"⟩,
                 ⟨q3.questionDescription, q3.questionId, "na"⟩,
                 ⟨q4.questionDescription, q4.questionId, "na"⟩] := by
  have hnb := json_loads_ok_not_blank h
  unfold transform_questions_with_api_match
  rw [if_neg hnb, h]
  rfl

/-- C3 witness: a concrete three-entry JSON mapping against five concrete
templates. -/
theorem c3_positional_match_witness :
    transform_questions_with_api_match
        "\x7b\"a\": \"Y\", \"b\": \"\", \"c\": \"no\"\x7d"
        [⟨"T1", 1⟩, ⟨"T2", 2⟩, ⟨"T3", 3⟩, ⟨"T4", 4⟩, ⟨"T5", 5⟩] =
      Except.ok [⟨"T1", 1, "y"⟩, ⟨"T2", 2, "na"⟩, ⟨"T3", 3, "no"⟩,
                 ⟨"T4", 4, "na"⟩, ⟨"T5", 5, "na"⟩] :=
  c3_positional_match ⟨"T1", 1⟩ ⟨"T2", 2⟩ ⟨"T3", 3⟩ ⟨"T4", 4⟩ ⟨"T5", 5⟩
    "\x7b\"a\": \"Y\", \"b\": \"\", \"c\": \"no\"\x7d" "a" "b" "c" rfl

/-- C10: the upstream payload always contains the eight normalized fields,
and contains "groupId" exactly when the request's group id is present and
normalizes to something non-blank. -/
theorem c10_payload_group_id (nowD : Date) (nowT : DateTime) (req : ScheduleRequest)
    (api_questions : List ApiQuestion) (p : List (String × PayloadVal))
    (h : schedule_appointment_payload nowD nowT req api_questions = Except.ok p) :
    (("groupId" ∈ p.map Prod.fst) ↔
      ∃ g, req.groupId = some g ∧ g ≠ "" ∧ ¬(∀ c ∈ g.data, isPyWs c = true) ∧
        pyLower g ≠ "null" ∧ pyLower g ≠ "none") ∧
    (∀ k ∈ ["clientCode", "clientOrderNumber", "scheduledDate", "consigneeName",
            "phoneNumber", "aiConsent", "consentDateTime", "questions"],
      k ∈ p.map Prod.fst) := by
  unfold schedule_appointment_payload at h
  rcases hq : transform_questions_with_api_match req.questions api_questions with e | tq
  · rw [hq] at h
    simp only [bind, Except.bind] at h
    cases h
  · rw [hq] at h
    simp only [bind, Except.bind] at h
    rcases hg : req.groupId with _ | g
    · simp only [hg] at h
      rw [if_neg (fun hx => hx rfl)] at h
      injection h with h
      have hkeys : p.map Prod.fst = ["clientCode", "clientOrderNumber", "scheduledDate",
          "consigneeName", "phoneNumber", "aiConsent", "consentDateTime", "questions"] := by
        rw [← h]; exact rfl
      rw [hkeys]
      refine ⟨?_, by intro k hk; fin_cases hk <;> decide⟩
      constructor
      · intro hmem
        exact absurd hmem (by decide)
      · rintro ⟨g, hgg, _⟩
        cases hgg
    · simp only [hg] at h
      by_cases hcond : g = "" ∨ pyStrip g = "" ∨ pyLower g = "null" ∨ pyLower g = "none"
      · have hclean : handle_null_or_empty (some g) "" = "" := by
          simp only [handle_null_or_empty]
          rw [if_pos hcond]
        rw [hclean, if_neg (fun hx => hx rfl)] at h
        injection h with h
        have hkeys : p.map Prod.fst = ["clientCode", "clientOrderNumber", "scheduledDate",
            "consigneeName", "phoneNumber", "aiConsent", "consentDateTime", "questions"] := by
          rw [← h]; exact rfl
        rw [hkeys]
        refine ⟨?_, by intro k hk; fin_cases hk <;> decide⟩
        constructor
        · intro hmem
          exact absurd hmem (by decide)
        · rintro ⟨g2, hgg, hg1, hg2, hg3, hg4⟩
          injection hgg with hgg
          subst hgg
          rcases hcond with hc | hc | hc | hc
          · exact absurd hc hg1
          · exact absurd ((pyStrip_eq_empty_iff _).mp hc) hg2
          · exact absurd hc hg3
          · exact absurd hc hg4
      · have hclean : handle_null_or_empty (some g) "" = g := by
          simp only [handle_null_or_empty]
          rw [if_neg hcond]
        push_neg at hcond
        obtain ⟨h1, h2, h3, h4⟩ := hcond
        rw [hclean, if_pos h1] at h
        injection h with h
        have hkeys : p.map Prod.fst = ["clientCode", "clientOrderNumber", "scheduledDate",
            "consigneeName", "phoneNumber", "aiConsent", "consentDateTime", "questions",
            "groupId"] := by
          rw [← h]; exact rfl
        rw [hkeys]
        refine ⟨?_, by intro k hk; fin_cases hk <;> decide⟩
        constructor
        · intro _
          exact ⟨g, rfl, h1, (fun hws => h2 ((pyStrip_eq_empty_iff g).mpr hws)), h3, h4⟩
        · intro _
          decide

/-- C10 witness: a concrete request with a present, non-blank group id
produces a payload whose key set includes "groupId". -/
theorem c10_payload_group_id_witness :
    "groupId" ∈ (List.map Prod.fst
      [("clientCode", PayloadVal.str "c"), ("clientOrderNumber", PayloadVal.str "o"),
       ("scheduledDate", PayloadVal.str "2025-01-02"), ("consigneeName", PayloadVal.str "n"),
       ("phoneNumber", PayloadVal.str "p"), ("aiConsent", PayloadVal.str "true"),
       ("consentDateTime", PayloadVal.str "2025-01-02T03:04:05"),
       ("questions", PayloadVal.qlist []), ("groupId", PayloadVal.str "G")]) :=
  ((c10_payload_group_id ⟨2025, 1, 1⟩ ⟨2025, 1, 2, 3, 4, 5⟩
      ⟨"c", "o", "2025-01-02", "n", "p", "yes", "2025-01-02T03:04:05", "", some "G", none⟩ []
      [("clientCode", PayloadVal.str "c"), ("clientOrderNumber", PayloadVal.str "o"),
       ("scheduledDate", PayloadVal.str "2025-01-02"), ("consigneeName", PayloadVal.str "n"),
       ("phoneNumber", PayloadVal.str "p"), ("aiConsent", PayloadVal.str "true"),
       ("consentDateTime", PayloadVal.str "2025-01-02T03:04:05"),
       ("questions", PayloadVal.qlist []), ("groupId", PayloadVal.str "G")] rfl).1).mpr
    ⟨"G", rfl, by decide, by decide, by decide, by decide⟩

end RLM
